import Mathlib

/-!
# ForexNews-Bot: verification of the notification core

Shallow embedding of the notification-deduplication core of the bot:

* `utils.py` — `NewsTracker` (persisted set of already-sent notification
  keys: `_load_sent_news`, `_save_sent_news`, `is_news_sent`,
  `mark_as_sent`) and `filter_events` (currency filter plus display-title
  enrichment);
* `main.py` — `get_upcoming_events` (window selection and sort) and
  `check_upcoming_news` (per-event threshold notifier at 60/30/15/5/1
  minutes plus the "started" alert).

Python sets are modelled as `Finset String`, the persisted JSON file as
`Option (List String)` (`none` = file absent), timestamps and time
differences as rationals (seconds; `time_diff` is in minutes, exactly as
`total_seconds() / 60` in `main.py:129`).  A persistence write that can
fail is modelled by a `Bool` outcome; an exception carries the state at
the point it is raised.
-/

namespace ForexBot

/-! ## Notification state store (`utils.py`, class `NewsTracker`) -/

/-- The observable state of a `NewsTracker` together with the persisted
file: `sent_news` is the in-memory Python set, `file` the contents of
`sent_news.json` (`none` when the file does not exist). -/
structure TrackerState where
  sent_news : Finset String
  file : Option (List String)

instance : DecidableEq TrackerState := fun a b =>
  decidable_of_iff (a.sent_news = b.sent_news ∧ a.file = b.file)
    (by cases a; cases b; simp)

/-- `NewsTracker._load_sent_news` (utils.py:91-95): read the JSON list and
build a set from it; an absent file yields the empty set. -/
def load_sent_news : Option (List String) → Finset String
  | some l => l.toFinset
  | none => ∅

/-- `NewsTracker._save_sent_news` (utils.py:97-99): the file content after
a save is `list(self.sent_news)` — the set's elements in some order; we
fix the canonical sorted order. -/
def save_sent_news (s : Finset String) : List String :=
  s.sort (· ≤ ·)

/-- `NewsTracker.__init__` (utils.py:87-89): a fresh tracker loads its set
from the persisted file. -/
def initTracker (file : Option (List String)) : TrackerState :=
  { sent_news := load_sent_news file, file := file }

/-- `NewsTracker.is_news_sent` (utils.py:101-102): membership test. -/
def is_news_sent (st : TrackerState) (news_id : String) : Bool :=
  news_id ∈ st.sent_news

/-- `NewsTracker.mark_as_sent` (utils.py:104-106): add the key to the
in-memory set, then persist the full set. -/
def mark_as_sent (st : TrackerState) (news_id : String) : TrackerState :=
  let m := insert news_id st.sent_news
  { sent_news := m, file := some (save_sent_news m) }

/-- `NewsTracker.mark_as_sent` with an explicit outcome for the durable
write (utils.py:104-106): the in-memory `set.add` happens first; if the
write of `_save_sent_news` raises, the exception propagates out of
`mark_as_sent` carrying the state at that point (memory mutated, file
unchanged). -/
def mark_as_sent_f (writeOk : Bool) (st : TrackerState) (news_id : String) :
    Except TrackerState TrackerState :=
  let m := insert news_id st.sent_news
  if writeOk then Except.ok { sent_news := m, file := some (save_sent_news m) }
  else Except.error { sent_news := m, file := st.file }

/-- The tracker's in-memory set agrees with what the persisted file
holds.  This holds for a fresh tracker (`initTracker`) and is preserved by
every successful operation. -/
def FileConsistent (st : TrackerState) : Prop :=
  st.sent_news = load_sent_news st.file

instance (st : TrackerState) : Decidable (FileConsistent st) :=
  inferInstanceAs (Decidable (st.sent_news = load_sent_news st.file))

/-! ## Event filtering (`utils.py`, `filter_events`) -/

/-- An event as produced by the normalizer
(`ForexFactoryCalendar._process_events`, utils.py:63-74): `impact` is
still the numeric level. -/
structure RawEvent where
  date : String
  time : String
  currency : String
  impact : Int
  event : String
  forecast : String
  previous : String
  id : String
deriving DecidableEq

/-- An event after `filter_events`: `impact` has been mapped to text and
the title possibly enriched. -/
structure FEvent where
  date : String
  time : String
  currency : String
  impact : String
  event : String
  forecast : String
  previous : String
  id : String
deriving DecidableEq

/-- `impact_map.get(event_copy['impact'], "Unknown")` (utils.py:136,141). -/
def impact_text (i : Int) : String :=
  if i = 0 then "Holiday"
  else if i = 1 then "Low"
  else if i = 2 then "Medium"
  else if i = 3 then "High"
  else "Unknown"

/-- The per-event body of the `filter_events` loop (utils.py:140-151):
copy the event, map the impact to text, and append forecast/previous
values to the title when available and not `'N/A'` (the Python truthiness
test also excludes the empty string). -/
def enrich_event (e : RawEvent) : FEvent :=
  let values : List String :=
    (if e.forecast ≠ "N/A" ∧ e.forecast ≠ "" then ["F: " ++ e.forecast] else []) ++
    (if e.previous ≠ "N/A" ∧ e.previous ≠ "" then ["P: " ++ e.previous] else [])
  { date := e.date, time := e.time, currency := e.currency
    impact := impact_text e.impact
    event := if values = [] then e.event
             else e.event ++ " (" ++ String.intercalate ", " values ++ ")"
    forecast := e.forecast, previous := e.previous, id := e.id }

/-- `filter_events` (utils.py:130-155): default allow-list
`['USD', 'EUR', 'CAD']` when `currencies is None`; keep events whose
currency is allowed, appending the enriched copy in feed order. -/
def filter_events (events : List RawEvent) (currencies : Option (List String)) :
    List FEvent :=
  let cs := currencies.getD ["USD", "EUR", "CAD"]
  events.foldl
    (fun acc e => if e.currency ∈ cs then acc ++ [enrich_event e] else acc) []

/-! ## Upcoming-window selection (`main.py`, `get_upcoming_events`) -/

/-- `get_upcoming_events` (main.py:40-70), parametrised by the computed
occurrence time `pdt e` in seconds (the result of `strptime`, year fix-up
and localization, main.py:51-56; `none` models the `ValueError` branch
that skips the event, main.py:62-64).  Keeps events with
`0 <= occursAt - now <= hours` (in hours, main.py:59), pairing each kept
event with its `datetime`, then sorts ascending by that key
(main.py:66; Python's `list.sort` is stable). -/
def get_upcoming_events (pdt : FEvent → Option ℚ) (now : ℚ) (hours : ℚ)
    (events : List RawEvent) (currencies : Option (List String)) :
    List (FEvent × ℚ) :=
  let filtered := filter_events events currencies
  let upcoming := filtered.foldl
    (fun acc e =>
      match pdt e with
      | none => acc
      | some d =>
          if 0 ≤ d - now ∧ d - now ≤ hours * 3600 then acc ++ [(e, d)] else acc)
    []
  upcoming.mergeSort (fun a b => a.2 ≤ b.2)

/-- The window predicate of main.py:59 on the computed occurrence time. -/
def inWindow (now hours d : ℚ) : Prop :=
  0 ≤ d - now ∧ d - now ≤ hours * 3600

instance (now hours d : ℚ) : Decidable (inWindow now hours d) :=
  inferInstanceAs (Decidable (0 ≤ d - now ∧ d - now ≤ hours * 3600))

/-- The list of kept (event, datetime) pairs in feed order, before the
sort: the reference point for membership and stability statements. -/
def windowed (pdt : FEvent → Option ℚ) (now : ℚ) (hours : ℚ)
    (events : List RawEvent) (currencies : Option (List String)) :
    List (FEvent × ℚ) :=
  (filter_events events currencies).foldl
    (fun acc e =>
      match pdt e with
      | none => acc
      | some d =>
          if 0 ≤ d - now ∧ d - now ≤ hours * 3600 then acc ++ [(e, d)] else acc)
    []

/-! ## Threshold notifier (`main.py`, `check_upcoming_news`) -/

/-- The fixed threshold list of main.py:132. -/
def thresholds : List ℕ := [60, 30, 15, 5, 1]

/-- `f"{event['id']}_t{threshold}"` (main.py:135). -/
def thresholdKey (id : String) (t : ℕ) : String :=
  id ++ "_t" ++ toString t

/-- `f"{event['id']}_started"` (main.py:152,164). -/
def startedKey (id : String) : String :=
  id ++ "_started"

/-- An upcoming event as seen by the notifier: identifier and computed
occurrence time (seconds). -/
structure UEvent where
  id : String
  datetime : ℚ

/-- `(event['datetime'] - now).total_seconds() / 60` (main.py:129):
minutes until the event. -/
def time_diff (e : UEvent) (now : ℚ) : ℚ :=
  (e.datetime - now) / 60

/-- The firing condition of main.py:137 for one threshold. -/
def thresholdCond (e : UEvent) (now : ℚ) (t : ℕ) : Prop :=
  (t : ℚ) - 1 ≤ time_diff e now ∧ time_diff e now ≤ (t : ℚ)

instance (e : UEvent) (now : ℚ) (t : ℕ) : Decidable (thresholdCond e now t) :=
  inferInstanceAs (Decidable ((t : ℚ) - 1 ≤ time_diff e now ∧ time_diff e now ≤ (t : ℚ)))

/-- The firing condition of main.py:152 for the "started" alert. -/
def startedCond (e : UEvent) (now : ℚ) : Prop :=
  0 ≤ time_diff e now ∧ time_diff e now < 1

instance (e : UEvent) (now : ℚ) : Decidable (startedCond e now) :=
  inferInstanceAs (Decidable (0 ≤ time_diff e now ∧ time_diff e now < 1))

/-- The `for threshold in thresholds` loop of main.py:134-149 (all
persistence writes succeeding): threads the tracker state and records the
keys of the notifications delivered, in order. -/
def processThresholds (st : TrackerState) (e : UEvent) (now : ℚ) :
    TrackerState × List String :=
  thresholds.foldl
    (fun acc t =>
      let key := thresholdKey e.id t
      if thresholdCond e now t ∧ is_news_sent acc.1 key = false then
        (mark_as_sent acc.1 key, acc.2 ++ [key])
      else acc)
    (st, [])

/-- The "started" branch of main.py:151-164 (write succeeding). -/
def processStarted (st : TrackerState) (e : UEvent) (now : ℚ) :
    TrackerState × List String :=
  if startedCond e now ∧ is_news_sent st (startedKey e.id) = false then
    (mark_as_sent st (startedKey e.id), [startedKey e.id])
  else (st, [])

/-- The body of the per-event `try` block of main.py:128-164 (writes
succeeding). -/
def processEvent (st : TrackerState) (e : UEvent) (now : ℚ) :
    TrackerState × List String :=
  let a := processThresholds st e now
  let b := processStarted a.1 e now
  (b.1, a.2 ++ b.2)

/-- `check_upcoming_news` (main.py:121-171) with all persistence writes
succeeding: fold the per-event processing over the upcoming events,
accumulating the delivered notification keys. -/
def check_upcoming_news (st : TrackerState) (events : List UEvent) (now : ℚ) :
    TrackerState × List String :=
  events.foldl
    (fun acc e =>
      let r := processEvent acc.1 e now
      (r.1, acc.2 ++ r.2))
    (st, [])

/-! ### Fallible variants: the persistence write may raise

`writeOk` is the outcome of every `_save_sent_news` call in the run.  An
`Except.error` models a Python exception crossing that code boundary; the
error value is the `(state, delivered keys)` pair at the raise point —
the message was already sent (main.py:143-147) before `mark_as_sent`
(main.py:149), so a delivery that failed to persist still counts as
delivered. -/

/-- The threshold loop of main.py:134-149 with fallible writes.  There is
no `try` inside the loop, so the first failing `mark_as_sent` aborts the
remaining thresholds. -/
def processThresholdsF (writeOk : Bool) (st : TrackerState) (e : UEvent)
    (now : ℚ) : Except (TrackerState × List String) (TrackerState × List String) :=
  thresholds.foldlM
    (fun acc t =>
      let key := thresholdKey e.id t
      if thresholdCond e now t ∧ is_news_sent acc.1 key = false then
        match mark_as_sent_f writeOk acc.1 key with
        | Except.ok st' => Except.ok (st', acc.2 ++ [key])
        | Except.error st' => Except.error (st', acc.2 ++ [key])
      else Except.ok acc)
    (st, [])

/-- The "started" branch of main.py:151-164 with fallible writes. -/
def processStartedF (writeOk : Bool) (st : TrackerState) (e : UEvent)
    (now : ℚ) : Except (TrackerState × List String) (TrackerState × List String) :=
  if startedCond e now ∧ is_news_sent st (startedKey e.id) = false then
    match mark_as_sent_f writeOk st (startedKey e.id) with
    | Except.ok st' => Except.ok (st', [startedKey e.id])
    | Except.error st' => Except.error (st', [startedKey e.id])
  else Except.ok (st, [])

/-- The body of the per-event `try` block of main.py:128-164 with
fallible writes: an exception propagates to the per-event handler. -/
def processEventF (writeOk : Bool) (st : TrackerState) (e : UEvent) (now : ℚ) :
    Except (TrackerState × List String) (TrackerState × List String) :=
  match processThresholdsF writeOk st e now with
  | Except.error r => Except.error r
  | Except.ok a =>
      match processStartedF writeOk a.1 e now with
      | Except.error b => Except.error (b.1, a.2 ++ b.2)
      | Except.ok b => Except.ok (b.1, a.2 ++ b.2)

/-- `check_upcoming_news` (main.py:121-171) with fallible writes.  The
`except` at main.py:166-168 catches any exception from one event's
processing, logs it and continues with the next event; the `except` at
main.py:170-171 catches anything else.  The result carries the final
state, the delivered keys, and the log of caught errors; the codomain
keeps an error channel to express whether a failure reaches the caller. -/
def check_upcoming_newsF (writeOk : Bool) (st : TrackerState)
    (events : List UEvent) (now : ℚ) :
    Except String (TrackerState × List String × List String) :=
  Except.ok (events.foldl
    (fun acc e =>
      match processEventF writeOk acc.1 e now with
      | Except.ok r => (r.1, acc.2.1 ++ r.2, acc.2.2)
      | Except.error r =>
          (r.1, acc.2.1 ++ r.2,
           acc.2.2 ++ ["Error processing event notification"]))
    (st, [], []))

/-! ### Whole-run traces: checks interleaved with process restarts -/

/-- One step of the bot's life: a scheduler tick running
`check_upcoming_news` (with its upcoming events and clock reading), or a
process restart, which re-creates the `NewsTracker` from the persisted
file (utils.py:87-95, main.py:35). -/
inductive BotStep where
  | check (events : List UEvent) (now : ℚ)
  | restart

/-- Run one step, returning the new state and the delivered keys. -/
def runStep (st : TrackerState) : BotStep → TrackerState × List String
  | BotStep.check events now => check_upcoming_news st events now
  | BotStep.restart => (initTracker st.file, [])

/-- Run a whole trace, accumulating every delivered notification key. -/
def runTrace (st : TrackerState) : List BotStep → TrackerState × List String
  | [] => (st, [])
  | s :: rest =>
      let r := runStep st s
      let r' := runTrace r.1 rest
      (r'.1, r.2 ++ r'.2)

/-! ### Store-operation traces (for the state-store invariants) -/

/-- One operation on the notification state store. -/
inductive StoreOp where
  | isSent (k : String)
  | markSent (k : String)
  | load

/-- Apply one store operation (all writes succeeding): `isSent` reads
only, `markSent` is `mark_as_sent`, `load` re-reads the persisted file
into memory as at tracker construction. -/
def applyOp (st : TrackerState) : StoreOp → TrackerState
  | StoreOp.isSent _ => st
  | StoreOp.markSent k => mark_as_sent st k
  | StoreOp.load => initTracker st.file

/-- Apply a sequence of store operations. -/
def applyOps (st : TrackerState) : List StoreOp → TrackerState
  | [] => st
  | op :: rest => applyOps (applyOp st op) rest

/-- Whether a store operation is the load-on-start (used to state
properties of the remainder of one process's lifetime, during which no
`load` happens). -/
def StoreOp.isLoad : StoreOp → Bool
  | StoreOp.load => true
  | _ => false

/-! ## Basic lemmas: strings and keys -/

theorem append_left_cancel {s a b : String} (h : s ++ a = s ++ b) : a = b := by
  apply String.ext
  have hd := congrArg String.data h
  simp only [String.data_append] at hd
  exact List.append_cancel_left hd

theorem thresholdKey_eq_iff (id : String) (t t' : ℕ) :
    thresholdKey id t = thresholdKey id t' ↔ toString t = toString t' := by
  constructor
  · intro h
    have h' : id ++ ("_t" ++ toString t) = id ++ ("_t" ++ toString t') := by
      simpa [thresholdKey, String.append_assoc] using h
    have := append_left_cancel h'
    exact append_left_cancel this
  · intro h
    simp [thresholdKey, h]

theorem thresholdKey_ne_startedKey (id : String) (t : ℕ) :
    thresholdKey id t ≠ startedKey id := by
  intro h
  have h' : id ++ ("_t" ++ toString t) = id ++ "_started" := by
    simpa [thresholdKey, startedKey, String.append_assoc] using h
  have h2 := append_left_cancel h'
  have hd := congrArg String.data h2
  simp only [String.data_append] at hd
  simp at hd

theorem thresholdKey_inj_of_mem {id : String} {t t' : ℕ}
    (ht : t ∈ thresholds) (ht' : t' ∈ thresholds)
    (h : thresholdKey id t = thresholdKey id t') : t = t' := by
  rw [thresholdKey_eq_iff] at h
  fin_cases ht <;> fin_cases ht' <;> first | rfl | (exfalso; exact absurd h (by decide))

/-! ## Basic lemmas: the state store -/

theorem load_save (s : Finset String) :
    load_sent_news (some (save_sent_news s)) = s := by
  ext a
  simp [load_sent_news, save_sent_news, List.mem_toFinset, Finset.mem_sort]

theorem mark_as_sent_sent_news (st : TrackerState) (k : String) :
    (mark_as_sent st k).sent_news = insert k st.sent_news := rfl

theorem mark_as_sent_fileConsistent (st : TrackerState) (k : String) :
    FileConsistent (mark_as_sent st k) := by
  simp [FileConsistent, mark_as_sent, load_save]

theorem initTracker_fileConsistent (file : Option (List String)) :
    FileConsistent (initTracker file) := rfl

theorem initTracker_of_fileConsistent {st : TrackerState}
    (h : FileConsistent st) : initTracker st.file = st := by
  cases st with
  | mk s f => simp [initTracker, FileConsistent] at h ⊢; exact h.symm

theorem is_news_sent_false_iff (st : TrackerState) (k : String) :
    is_news_sent st k = false ↔ k ∉ st.sent_news := by
  simp [is_news_sent]

theorem is_news_sent_true_iff (st : TrackerState) (k : String) :
    is_news_sent st k = true ↔ k ∈ st.sent_news := by
  simp [is_news_sent]

/-! ## Event filter: loop-to-subsequence characterisation -/

theorem filter_events_loop (cs : List String) (l : List RawEvent)
    (acc : List FEvent) :
    l.foldl (fun acc e => if e.currency ∈ cs then acc ++ [enrich_event e] else acc) acc
      = acc ++ (l.filter (fun e => decide (e.currency ∈ cs))).map enrich_event := by
  induction l generalizing acc with
  | nil => simp
  | cons e rest ih =>
      by_cases h : e.currency ∈ cs <;> simp [h, ih, List.filter_cons]

/-- C5.  `filter_events` returns the subsequence of events whose currency
is in the allowed set (defaulting to USD/EUR/CAD), in the original
relative order, each replaced by its enriched copy (`enrich_event`: the
display title gains forecast/previous values in parentheses when present
and not `'N/A'`); being a Lean function of its inputs, it is pure and
leaves its input list untouched. -/
theorem claim_C5_filter_events (events : List RawEvent) (currencies : List String) :
    filter_events events (some currencies)
        = (events.filter (fun e => decide (e.currency ∈ currencies))).map enrich_event
      ∧ filter_events events none
        = (events.filter
            (fun e => decide (e.currency ∈ (["USD", "EUR", "CAD"] : List String)))).map
            enrich_event := by
  constructor
  · simpa only [List.nil_append] using filter_events_loop currencies events []
  · simpa only [List.nil_append] using
      filter_events_loop ["USD", "EUR", "CAD"] events []

/-- C6.  `mark_as_sent` is idempotent: marking the same key twice leaves
both the in-memory set and the persisted file exactly as marking it
once. -/
theorem claim_C6_markSent_idempotent (st : TrackerState) (k : String) :
    mark_as_sent (mark_as_sent st k) k = mark_as_sent st k := by
  simp [mark_as_sent]

/-- C7.  Round-trip: saving a key set and constructing a fresh tracker
from the written file reconstructs exactly that key set; a fresh tracker
over a missing file starts empty. -/
theorem claim_C7_roundtrip (s : Finset String) :
    (initTracker (some (save_sent_news s))).sent_news = s
      ∧ (initTracker none).sent_news = ∅ := by
  constructor
  · simpa [initTracker] using load_save s
  · rfl

/-! ## Notifier characterisation -/

/-- Mark a list of keys in order. -/
def markList (st : TrackerState) : List String → TrackerState
  | [] => st
  | k :: ks => markList (mark_as_sent st k) ks

/-- Whether the threshold branch of main.py:137 fires for `t`, relative
to a base tracker state. -/
def firesThr (st : TrackerState) (e : UEvent) (now : ℚ) (t : ℕ) : Bool :=
  decide (thresholdCond e now t) && !(is_news_sent st (thresholdKey e.id t))

/-- Whether the started branch of main.py:152 fires, relative to a base
tracker state. -/
def firesStart (st : TrackerState) (e : UEvent) (now : ℚ) : Bool :=
  decide (startedCond e now) && !(is_news_sent st (startedKey e.id))

/-- The threshold-notification keys one event fires on one check. -/
def firedKeys (st : TrackerState) (e : UEvent) (now : ℚ) : List String :=
  (thresholds.filter (firesThr st e now)).map (thresholdKey e.id)

/-- All notification keys one event fires on one check. -/
def eventKeys (st : TrackerState) (e : UEvent) (now : ℚ) : List String :=
  firedKeys st e now ++ (if firesStart st e now then [startedKey e.id] else [])

theorem markList_sent_news (ks : List String) :
    ∀ st : TrackerState, (markList st ks).sent_news = st.sent_news ∪ ks.toFinset := by
  induction ks with
  | nil => intro st; simp [markList]
  | cons k ks ih =>
      intro st
      rw [markList, ih, mark_as_sent_sent_news]
      ext a
      simp [or_assoc]

theorem markList_fileConsistent {st : TrackerState} (ks : List String)
    (h : FileConsistent st) : FileConsistent (markList st ks) := by
  induction ks generalizing st with
  | nil => exact h
  | cons k ks ih => exact ih (mark_as_sent_fileConsistent st k)

theorem markList_append (st : TrackerState) (a b : List String) :
    markList st (a ++ b) = markList (markList st a) b := by
  induction a generalizing st with
  | nil => rfl
  | cons k a ih => simp [markList, ih]

theorem processThresholds_loop (e : UEvent) (now : ℚ) :
    ∀ (ts : List ℕ), ts.Nodup →
      (∀ t ∈ ts, ∀ t' ∈ ts, thresholdKey e.id t = thresholdKey e.id t' → t = t') →
      ∀ (st : TrackerState) (ds : List String),
      ts.foldl
        (fun acc t =>
          let key := thresholdKey e.id t
          if thresholdCond e now t ∧ is_news_sent acc.1 key = false then
            (mark_as_sent acc.1 key, acc.2 ++ [key])
          else acc)
        (st, ds)
      = (markList st ((ts.filter (firesThr st e now)).map (thresholdKey e.id)),
         ds ++ (ts.filter (firesThr st e now)).map (thresholdKey e.id)) := by
  intro ts
  induction ts with
  | nil => intro _ _ st ds; simp [markList]
  | cons t ts ih =>
      intro hnd hinj st ds
      have hnd' : ts.Nodup := hnd.of_cons
      have htts : t ∉ ts := (List.nodup_cons.mp hnd).1
      have hinj' : ∀ a ∈ ts, ∀ b ∈ ts, thresholdKey e.id a = thresholdKey e.id b → a = b :=
        fun a ha b hb => hinj a (List.mem_cons_of_mem t ha) b (List.mem_cons_of_mem t hb)
      rw [List.foldl_cons]
      by_cases hfire : thresholdCond e now t ∧ is_news_sent st (thresholdKey e.id t) = false
      · have hfb : firesThr st e now t = true := by
          simp [firesThr, hfire.1, hfire.2]
        have hfilter : ts.filter (firesThr (mark_as_sent st (thresholdKey e.id t)) e now)
            = ts.filter (firesThr st e now) := by
          apply List.filter_congr
          intro t' ht'
          have hne : thresholdKey e.id t' ≠ thresholdKey e.id t := by
            intro hcontra
            exact htts (hinj t' (List.mem_cons_of_mem t ht')
              t (List.mem_cons_self t ts) hcontra ▸ ht')
          simp [firesThr, is_news_sent, mark_as_sent_sent_news, hne]
        simp only [if_pos hfire]
        rw [ih hnd' hinj' (mark_as_sent st (thresholdKey e.id t)) (ds ++ [thresholdKey e.id t]),
          hfilter]
        rw [List.filter_cons_of_pos hfb]
        simp [markList, List.append_assoc]
      · have hfb : firesThr st e now t = false := by
          by_cases hc : thresholdCond e now t
          · have : is_news_sent st (thresholdKey e.id t) = true := by
              rcases Bool.eq_false_or_eq_true (is_news_sent st (thresholdKey e.id t)) with h | h
              · exact h
              · exact absurd ⟨hc, h⟩ hfire
            simp [firesThr, this]
          · simp [firesThr, hc]
        simp only [if_neg hfire]
        rw [ih hnd' hinj' st ds, List.filter_cons_of_neg (by simp [hfb])]

theorem processThresholds_eq (st : TrackerState) (e : UEvent) (now : ℚ) :
    processThresholds st e now = (markList st (firedKeys st e now), firedKeys st e now) := by
  have := processThresholds_loop e now thresholds (by decide)
    (fun t ht t' ht' h => thresholdKey_inj_of_mem ht ht' h) st []
  simpa [processThresholds, firedKeys] using this

theorem startedKey_not_mem_firedKeys (st : TrackerState) (e : UEvent) (now : ℚ) :
    startedKey e.id ∉ firedKeys st e now := by
  intro h
  simp only [firedKeys, List.mem_map] at h
  obtain ⟨t, _, ht⟩ := h
  exact thresholdKey_ne_startedKey e.id t ht

theorem mem_sent_markList {k : String} (st : TrackerState) (ks : List String) :
    k ∈ (markList st ks).sent_news ↔ k ∈ st.sent_news ∨ k ∈ ks := by
  simp [markList_sent_news]

theorem is_news_sent_markList_of_not_mem {k : String} {ks : List String}
    (st : TrackerState) (h : k ∉ ks) :
    is_news_sent (markList st ks) k = is_news_sent st k := by
  simp [is_news_sent, markList_sent_news, h]

theorem firesStart_iff (st : TrackerState) (e : UEvent) (now : ℚ) :
    firesStart st e now = true
      ↔ startedCond e now ∧ is_news_sent st (startedKey e.id) = false := by
  rw [firesStart, Bool.and_eq_true, decide_eq_true_eq, Bool.not_eq_true']

theorem firesThr_iff (st : TrackerState) (e : UEvent) (now : ℚ) (t : ℕ) :
    firesThr st e now t = true
      ↔ thresholdCond e now t ∧ is_news_sent st (thresholdKey e.id t) = false := by
  rw [firesThr, Bool.and_eq_true, decide_eq_true_eq, Bool.not_eq_true']

theorem processEvent_eq (st : TrackerState) (e : UEvent) (now : ℚ) :
    processEvent st e now = (markList st (eventKeys st e now), eventKeys st e now) := by
  have hstart := is_news_sent_markList_of_not_mem st (startedKey_not_mem_firedKeys st e now)
  simp only [processEvent, processThresholds_eq, processStarted, hstart, eventKeys]
  by_cases hs : firesStart st e now = true
  · have hc := (firesStart_iff st e now).mp hs
    simp [hc.1, hc.2, hs, markList_append, markList]
  · have hs' : firesStart st e now = false := by simpa using hs
    have hc : ¬ (startedCond e now ∧ is_news_sent st (startedKey e.id) = false) :=
      fun hcon => hs ((firesStart_iff st e now).mpr hcon)
    simp [hc, hs']

theorem eventKeys_not_sent {k : String} {st : TrackerState} {e : UEvent} {now : ℚ}
    (h : k ∈ eventKeys st e now) : k ∉ st.sent_news := by
  rcases List.mem_append.mp h with h1 | h2
  · simp only [firedKeys, List.mem_map] at h1
    obtain ⟨t, ht, rfl⟩ := h1
    have hf := ((firesThr_iff st e now t).mp (List.mem_filter.mp ht).2).2
    exact (is_news_sent_false_iff st _).mp hf
  · by_cases hs : firesStart st e now = true
    · simp only [hs, if_true, List.mem_singleton] at h2
      subst h2
      exact (is_news_sent_false_iff st _).mp ((firesStart_iff st e now).mp hs).2
    · simp [show firesStart st e now = false by simpa using hs] at h2

theorem firedKeys_nodup (st : TrackerState) (e : UEvent) (now : ℚ) :
    (firedKeys st e now).Nodup := by
  apply List.Nodup.map_on
  · intro t ht t' ht' h
    exact thresholdKey_inj_of_mem (List.mem_of_mem_filter ht)
      (List.mem_of_mem_filter ht') h
  · exact List.Nodup.filter _ (by decide)

theorem eventKeys_nodup (st : TrackerState) (e : UEvent) (now : ℚ) :
    (eventKeys st e now).Nodup := by
  rw [eventKeys]
  apply List.Nodup.append (firedKeys_nodup st e now)
  · by_cases hs : firesStart st e now = true <;> simp [hs]
  · intro k hk hk'
    by_cases hs : firesStart st e now = true
    · simp only [hs, if_true, List.mem_singleton] at hk'
      subst hk'
      exact startedKey_not_mem_firedKeys st e now hk
    · simp [show firesStart st e now = false by simpa using hs] at hk'

theorem processEvent_sent_news (st : TrackerState) (e : UEvent) (now : ℚ) :
    (processEvent st e now).1.sent_news
      = st.sent_news ∪ (processEvent st e now).2.toFinset := by
  rw [processEvent_eq]
  exact markList_sent_news _ st

theorem processEvent_mono (st : TrackerState) (e : UEvent) (now : ℚ) :
    st.sent_news ⊆ (processEvent st e now).1.sent_news := by
  rw [processEvent_sent_news]
  exact Finset.subset_union_left

theorem processEvent_fileConsistent {st : TrackerState} (e : UEvent) (now : ℚ)
    (h : FileConsistent st) : FileConsistent (processEvent st e now).1 := by
  rw [processEvent_eq]
  exact markList_fileConsistent _ h

/-! ## Check-level lemmas -/

theorem check_accum (now : ℚ) :
    ∀ (evs : List UEvent) (st : TrackerState) (ds : List String),
    evs.foldl (fun acc e =>
        let r := processEvent acc.1 e now
        (r.1, acc.2 ++ r.2)) (st, ds)
      = ((check_upcoming_news st evs now).1,
         ds ++ (check_upcoming_news st evs now).2) := by
  intro evs
  induction evs with
  | nil => intro st ds; simp [check_upcoming_news]
  | cons e evs ih =>
      intro st ds
      rw [List.foldl_cons]
      show evs.foldl _ ((processEvent st e now).1, ds ++ (processEvent st e now).2) = _
      rw [ih]
      have hrhs : check_upcoming_news st (e :: evs) now
          = ((check_upcoming_news (processEvent st e now).1 evs now).1,
             (processEvent st e now).2
               ++ (check_upcoming_news (processEvent st e now).1 evs now).2) := by
        rw [check_upcoming_news, List.foldl_cons]
        show evs.foldl _ ((processEvent st e now).1, [] ++ (processEvent st e now).2) = _
        rw [ih]
        simp
      rw [hrhs, List.append_assoc]

theorem check_cons (st : TrackerState) (e : UEvent) (evs : List UEvent) (now : ℚ) :
    check_upcoming_news st (e :: evs) now
      = ((check_upcoming_news (processEvent st e now).1 evs now).1,
         (processEvent st e now).2
           ++ (check_upcoming_news (processEvent st e now).1 evs now).2) := by
  rw [check_upcoming_news, List.foldl_cons]
  show evs.foldl _ ((processEvent st e now).1, [] ++ (processEvent st e now).2) = _
  rw [check_accum]
  simp

theorem check_spec (now : ℚ) :
    ∀ (evs : List UEvent) (st : TrackerState),
    st.sent_news ⊆ (check_upcoming_news st evs now).1.sent_news
      ∧ (∀ k ∈ (check_upcoming_news st evs now).2, k ∉ st.sent_news)
      ∧ (∀ k ∈ (check_upcoming_news st evs now).2,
          k ∈ (check_upcoming_news st evs now).1.sent_news)
      ∧ (check_upcoming_news st evs now).2.Nodup
      ∧ (FileConsistent st → FileConsistent (check_upcoming_news st evs now).1) := by
  intro evs
  induction evs with
  | nil =>
      intro st
      refine ⟨Finset.Subset.refl _, ?_, ?_, ?_, ?_⟩ <;>
        simp [check_upcoming_news]
  | cons e evs ih =>
      intro st
      obtain ⟨ihmono, ihnew, ihin, ihnd, ihfc⟩ := ih (processEvent st e now).1
      rw [check_cons]
      have hp2 : (processEvent st e now).2 = eventKeys st e now := by
        rw [processEvent_eq]
      have hpin : ∀ k ∈ (processEvent st e now).2,
          k ∈ (processEvent st e now).1.sent_news := by
        intro k hk
        rw [processEvent_sent_news]
        exact Finset.mem_union_right _ (List.mem_toFinset.mpr hk)
      refine ⟨?_, ?_, ?_, ?_, ?_⟩
      · exact (processEvent_mono st e now).trans ihmono
      · intro k hk
        rcases List.mem_append.mp hk with h1 | h2
        · rw [hp2] at h1
          exact eventKeys_not_sent h1
        · intro hsent
          exact ihnew k h2 (processEvent_mono st e now hsent)
      · intro k hk
        rcases List.mem_append.mp hk with h1 | h2
        · exact ihmono (hpin k h1)
        · exact ihin k h2
      · refine List.Nodup.append ?_ ihnd ?_
        · rw [hp2]; exact eventKeys_nodup st e now
        · intro k hk hk'
          exact ihnew k hk' (hpin k hk)
      · intro hfc
        exact ihfc (processEvent_fileConsistent e now hfc)

/-! ## Trace-level lemmas -/

theorem runStep_spec (st : TrackerState) (s : BotStep) (hfc : FileConsistent st) :
    st.sent_news ⊆ (runStep st s).1.sent_news
      ∧ (∀ k ∈ (runStep st s).2, k ∉ st.sent_news)
      ∧ (∀ k ∈ (runStep st s).2, k ∈ (runStep st s).1.sent_news)
      ∧ (runStep st s).2.Nodup
      ∧ FileConsistent (runStep st s).1 := by
  cases s with
  | check evs now =>
      obtain ⟨h1, h2, h3, h4, h5⟩ := check_spec now evs st
      exact ⟨h1, h2, h3, h4, h5 hfc⟩
  | restart =>
      rw [runStep, initTracker_of_fileConsistent hfc]
      exact ⟨Finset.Subset.refl _, by simp, by simp, List.nodup_nil, hfc⟩

theorem runTrace_spec (steps : List BotStep) :
    ∀ (st : TrackerState), FileConsistent st →
    st.sent_news ⊆ (runTrace st steps).1.sent_news
      ∧ (∀ k ∈ (runTrace st steps).2, k ∉ st.sent_news)
      ∧ (∀ k ∈ (runTrace st steps).2, k ∈ (runTrace st steps).1.sent_news)
      ∧ (runTrace st steps).2.Nodup
      ∧ FileConsistent (runTrace st steps).1 := by
  induction steps with
  | nil =>
      intro st hfc
      exact ⟨Finset.Subset.refl _, by simp [runTrace], by simp [runTrace],
        by simp [runTrace], hfc⟩
  | cons s steps ih =>
      intro st hfc
      obtain ⟨s1, s2, s3, s4, s5⟩ := runStep_spec st s hfc
      obtain ⟨t1, t2, t3, t4, t5⟩ := ih (runStep st s).1 s5
      rw [runTrace]
      refine ⟨s1.trans t1, ?_, ?_, ?_, t5⟩
      · intro k hk
        rcases List.mem_append.mp hk with h1 | h2
        · exact s2 k h1
        · intro hsent
          exact t2 k h2 (s1 hsent)
      · intro k hk
        rcases List.mem_append.mp hk with h1 | h2
        · exact t1 (s3 k h1)
        · exact t3 k h2
      · refine List.Nodup.append s4 t4 ?_
        intro k hk hk'
        exact t2 k hk' (s3 k hk)

theorem mem_eventKeys_thresholdKey {st : TrackerState} {e : UEvent} {now : ℚ}
    {t : ℕ} (ht : t ∈ thresholds) :
    thresholdKey e.id t ∈ eventKeys st e now ↔ firesThr st e now t = true := by
  rw [eventKeys, List.mem_append]
  constructor
  · rintro (h1 | h2)
    · simp only [firedKeys, List.mem_map] at h1
      obtain ⟨t', ht', hkey⟩ := h1
      have heq := thresholdKey_inj_of_mem (List.mem_of_mem_filter ht') ht hkey
      subst heq
      exact (List.mem_filter.mp ht').2
    · exfalso
      by_cases hs : firesStart st e now = true
      · simp only [hs, if_true, List.mem_singleton] at h2
        exact thresholdKey_ne_startedKey e.id t h2
      · simp [show firesStart st e now = false by simpa using hs] at h2
  · intro hf
    exact Or.inl (List.mem_map.mpr ⟨t, List.mem_filter.mpr ⟨ht, hf⟩, rfl⟩)

theorem mem_eventKeys_startedKey (st : TrackerState) (e : UEvent) (now : ℚ) :
    startedKey e.id ∈ eventKeys st e now ↔ firesStart st e now = true := by
  rw [eventKeys, List.mem_append]
  constructor
  · rintro (h1 | h2)
    · exact absurd h1 (startedKey_not_mem_firedKeys st e now)
    · by_cases hs : firesStart st e now = true
      · exact hs
      · simp [show firesStart st e now = false by simpa using hs] at h2
  · intro hs
    simp [hs]

/-- C1.  For a process started from any persisted file, across any trace
of check invocations and restarts, each (event, threshold) notification
key — and each "started" key — is delivered at most once: the persisted
`NewsTracker` state makes every later membership test skip the send
branch. -/
theorem claim_C1_at_most_once (file : Option (List String)) (steps : List BotStep)
    (e : UEvent) (t : ℕ) :
    ((runTrace (initTracker file) steps).2).count (thresholdKey e.id t) ≤ 1
      ∧ ((runTrace (initTracker file) steps).2).count (startedKey e.id) ≤ 1 := by
  have h := runTrace_spec steps (initTracker file) (initTracker_fileConsistent file)
  have hnd := h.2.2.2.1
  exact ⟨List.nodup_iff_count_le_one.mp hnd _, List.nodup_iff_count_le_one.mp hnd _⟩

/-- C3.  On one check, the "started" notification for an event fires iff
`0 ≤ minutesUntil < 1` and its key is not yet sent; moreover its firing
is unchanged if any minute-threshold key of the same event is added to
the sent set beforehand (independence from earlier thresholds). -/
theorem claim_C3_started_iff (st : TrackerState) (e : UEvent) (now : ℚ) :
    (startedKey e.id ∈ (processEvent st e now).2
        ↔ startedCond e now ∧ is_news_sent st (startedKey e.id) = false)
      ∧ ∀ t : ℕ,
        (startedKey e.id ∈
            (processEvent
              { sent_news := insert (thresholdKey e.id t) st.sent_news,
                file := st.file } e now).2
          ↔ startedKey e.id ∈ (processEvent st e now).2) := by
  constructor
  · rw [processEvent_eq]
    simpa [mem_eventKeys_startedKey] using firesStart_iff st e now
  · intro t
    rw [processEvent_eq, processEvent_eq]
    simp only [mem_eventKeys_startedKey, firesStart_iff]
    have : is_news_sent
        { sent_news := insert (thresholdKey e.id t) st.sent_news,
          file := st.file } (startedKey e.id) = is_news_sent st (startedKey e.id) := by
      simp [is_news_sent, (thresholdKey_ne_startedKey e.id t).symm]
    rw [this]

theorem thresholdCond_unique {e : UEvent} {now : ℚ} {t t' : ℕ}
    (ht : t ∈ thresholds) (ht' : t' ∈ thresholds)
    (hc : thresholdCond e now t) (hc' : thresholdCond e now t') : t = t' := by
  obtain ⟨h1, h2⟩ := hc
  obtain ⟨h3, h4⟩ := hc'
  fin_cases ht <;> fin_cases ht' <;> first
    | rfl
    | (exfalso; push_cast at h1 h2 h3 h4; linarith)

theorem processThresholdsF_error {e : UEvent} {now : ℚ} {t : ℕ}
    (st : TrackerState)
    (hc : thresholdCond e now t)
    (hns : is_news_sent st (thresholdKey e.id t) = false) :
    ∀ ts : List ℕ, t ∈ ts →
      (∀ u ∈ ts, u ≠ t → ¬ thresholdCond e now u) →
      ts.foldlM
        (fun acc u =>
          let key := thresholdKey e.id u
          if thresholdCond e now u ∧ is_news_sent acc.1 key = false then
            match mark_as_sent_f false acc.1 key with
            | Except.ok st' => Except.ok (st', acc.2 ++ [key])
            | Except.error st' => Except.error (st', acc.2 ++ [key])
          else Except.ok acc)
        ((st, []) : TrackerState × List String)
      = Except.error
          ({ sent_news := insert (thresholdKey e.id t) st.sent_news, file := st.file },
           [thresholdKey e.id t]) := by
  intro ts
  induction ts with
  | nil => intro h; exact absurd h (List.not_mem_nil t)
  | cons u ts ih =>
      intro hmem hothers
      rw [List.foldlM_cons]
      by_cases hu : u = t
      · subst hu
        rw [if_pos ⟨hc, hns⟩]
        rfl
      · have hnc : ¬ thresholdCond e now u :=
          hothers u (List.mem_cons_self u ts) hu
        rw [if_neg (fun hcon => hnc hcon.1)]
        have hmem' : t ∈ ts := by
          rcases List.mem_cons.mp hmem with h | h
          · exact absurd h.symm hu
          · exact h
        have hothers' : ∀ v ∈ ts, v ≠ t → ¬ thresholdCond e now v :=
          fun v hv => hothers v (List.mem_cons_of_mem u hv)
        exact ih hmem' hothers'

set_option maxHeartbeats 1000000 in
/-- C2.  On one check, a minute-threshold alert for an event fires iff
`t-1 ≤ minutesUntil ≤ t` and its key is not already sent; on firing the
key is marked sent; and the order is send-then-mark: if the persistence
write fails, the exception carries the key among the delivered
notifications while the persisted file is unchanged. -/
theorem claim_C2_threshold_fire (st : TrackerState) (e : UEvent) (now : ℚ)
    (t : ℕ) (ht : t ∈ thresholds) :
    (thresholdKey e.id t ∈ (processEvent st e now).2
        ↔ thresholdCond e now t ∧ is_news_sent st (thresholdKey e.id t) = false)
      ∧ (thresholdKey e.id t ∈ (processEvent st e now).2 →
          thresholdKey e.id t ∈ (processEvent st e now).1.sent_news)
      ∧ (thresholdCond e now t → is_news_sent st (thresholdKey e.id t) = false →
          processEventF false st e now
            = Except.error
                ({ sent_news := insert (thresholdKey e.id t) st.sent_news,
                   file := st.file },
                 [thresholdKey e.id t])) := by
  refine ⟨?_, ?_, ?_⟩
  · rw [processEvent_eq]
    simpa [mem_eventKeys_thresholdKey ht] using firesThr_iff st e now t
  · intro hk
    rw [processEvent_sent_news]
    exact Finset.mem_union_right _ (List.mem_toFinset.mpr hk)
  · intro hc hns
    have hP : processThresholdsF false st e now
        = Except.error
            ({ sent_news := insert (thresholdKey e.id t) st.sent_news,
               file := st.file },
             [thresholdKey e.id t]) := by
      have h0 := processThresholdsF_error st hc hns thresholds ht
        (fun u hu hne hcu => hne (thresholdCond_unique hu ht hcu hc))
      exact h0
    rw [processEventF, hP]

/-! ## Store-operation invariants -/

theorem applyOp_fileConsistent {st : TrackerState} (op : StoreOp)
    (h : FileConsistent st) : FileConsistent (applyOp st op) := by
  cases op with
  | isSent k => exact h
  | markSent k => exact mark_as_sent_fileConsistent st k
  | load => exact initTracker_fileConsistent st.file

theorem applyOp_mem {st : TrackerState} {k : String} (op : StoreOp)
    (hfc : FileConsistent st) (hk : k ∈ st.sent_news) :
    k ∈ (applyOp st op).sent_news := by
  cases op with
  | isSent k' => exact hk
  | markSent k' =>
      rw [applyOp, mark_as_sent_sent_news]
      exact Finset.mem_insert_of_mem hk
  | load =>
      show k ∈ (load_sent_news st.file)
      rw [← hfc]
      exact hk

/-- C9.  Monotonicity of the notification state: across any sequence of
store operations (`isSent`, `markSent`, load-on-start), once a key is in
the sent set it stays in it — no operation removes keys. -/
theorem claim_C9_monotone (ops : List StoreOp) :
    ∀ (st : TrackerState) (k : String), FileConsistent st →
      k ∈ st.sent_news → k ∈ (applyOps st ops).sent_news := by
  induction ops with
  | nil => intro st k _ hk; exact hk
  | cons op ops ih =>
      intro st k hfc hk
      exact ih (applyOp st op) k (applyOp_fileConsistent op hfc)
        (applyOp_mem op hfc hk)

theorem applyOps_mem_of_no_load (ops : List StoreOp) :
    ∀ (st : TrackerState) (k : String), (∀ o ∈ ops, o.isLoad = false) →
      k ∈ st.sent_news → k ∈ (applyOps st ops).sent_news := by
  induction ops with
  | nil => intro st k _ hk; exact hk
  | cons op ops ih =>
      intro st k hops hk
      refine ih (applyOp st op) k
        (fun o ho => hops o (List.mem_cons_of_mem op ho)) ?_
      cases op with
      | isSent k' => exact hk
      | markSent k' =>
          rw [applyOp, mark_as_sent_sent_news]
          exact Finset.mem_insert_of_mem hk
      | load =>
          exact absurd (hops StoreOp.load (List.mem_cons_self _ _)) (by simp [StoreOp.isLoad])

/-- C10.  `mark_as_sent` mutates the in-memory set before the durable
write: when the write fails, the raised exception leaves a state in which
the key is already in memory (`is_news_sent` answers true for the rest of
the process lifetime, i.e. across any further load-free operations) while
the persisted file is unchanged — the operation is not atomic on error. -/
theorem claim_C10_mark_not_atomic (st : TrackerState) (k : String)
    (ops : List StoreOp) (hops : ∀ o ∈ ops, o.isLoad = false) :
    mark_as_sent_f false st k
        = Except.error { sent_news := insert k st.sent_news, file := st.file }
      ∧ is_news_sent
          { sent_news := insert k st.sent_news, file := st.file } k = true
      ∧ k ∈ (applyOps
          { sent_news := insert k st.sent_news, file := st.file } ops).sent_news := by
  refine ⟨rfl, ?_, ?_⟩
  · simp [is_news_sent]
  · exact applyOps_mem_of_no_load ops _ k hops (Finset.mem_insert_self k _)

/-! ## Exception propagation through the check routine -/

/-- Whether an `Except` computation returned normally. -/
def isOkE : Except ε α → Bool
  | Except.ok _ => true
  | Except.error _ => false

/-- C8 (amended).  A persistence-write failure propagates out of
`mark_as_sent` as an exception carrying the mutated in-memory state, but
`check_upcoming_news` catches every per-event exception (logging and
continuing), so no failure ever reaches the caller of the check
routine. -/
theorem claim_C8_amended (st : TrackerState) (k : String) (writeOk : Bool)
    (evs : List UEvent) (now : ℚ) :
    mark_as_sent_f false st k
        = Except.error { sent_news := insert k st.sent_news, file := st.file }
      ∧ isOkE (check_upcoming_newsF writeOk st evs now) = true :=
  ⟨rfl, rfl⟩

/-- C8 (counterexample to the claim as stated).  Concrete run: tracker
starts empty, two events are 59.5 and 29.5 minutes away, and every
persistence write fails.  The write failure does escape the per-event
processing (first conjunct: `processEventF` returns an exception), yet
`check_upcoming_news` returns normally — the exception is caught at
main.py:166-168, logged, and processing continues with the next event —
so no failure reaches the caller of the notification path. -/
theorem claim_C8_counterexample :
    processEventF false (initTracker none) ⟨"A", 3570⟩ 0
        = Except.error ({ sent_news := {"A_t60"}, file := none }, ["A_t60"])
      ∧ check_upcoming_newsF false (initTracker none) [⟨"A", 3570⟩, ⟨"B", 1770⟩] 0
        = Except.ok
            ({ sent_news := {"A_t60", "B_t30"}, file := none },
             ["A_t60", "B_t30"],
             ["Error processing event notification",
              "Error processing event notification"]) := by
  constructor
  · norm_num [processEventF, processThresholdsF, processStartedF, thresholds,
      thresholdCond, startedCond, time_diff, is_news_sent, mark_as_sent_f,
      thresholdKey, startedKey, initTracker, load_sent_news, List.foldlM,
      Bind.bind, Except.instMonad, Except.bind]
    decide
  · norm_num [check_upcoming_newsF, processEventF, processThresholdsF,
      processStartedF, thresholds, thresholdCond, startedCond, time_diff,
      is_news_sent, mark_as_sent_f, thresholdKey, startedKey, initTracker,
      load_sent_news, List.foldlM, Bind.bind, Except.instMonad, Except.bind]
    simp only [show ("B" ++ "_t" ++ toString 30 : String) = "B_t30" from rfl,
      show ("A" ++ "_t" ++ toString 60 : String) = "A_t60" from rfl]
    decide

/-! ## Window selection: membership, sortedness, stability -/

/-- The per-event window decision of main.py:50-64: `none` when parsing
fails (event skipped) or the event is outside `[now, now + hours]`. -/
def keepWindow (pdt : FEvent → Option ℚ) (now hours : ℚ) (e : FEvent) :
    Option (FEvent × ℚ) :=
  match pdt e with
  | none => none
  | some d => if 0 ≤ d - now ∧ d - now ≤ hours * 3600 then some (e, d) else none

theorem window_loop (pdt : FEvent → Option ℚ) (now hours : ℚ) :
    ∀ (l : List FEvent) (acc : List (FEvent × ℚ)),
    l.foldl
      (fun acc e =>
        match pdt e with
        | none => acc
        | some d =>
            if 0 ≤ d - now ∧ d - now ≤ hours * 3600 then acc ++ [(e, d)] else acc)
      acc
    = acc ++ l.filterMap (keepWindow pdt now hours) := by
  intro l
  induction l with
  | nil => intro acc; simp
  | cons e l ih =>
      intro acc
      rw [List.foldl_cons]
      cases hpe : pdt e with
      | none => simp only [hpe, List.filterMap_cons, keepWindow, ih]
      | some d =>
          by_cases hw : 0 ≤ d - now ∧ d - now ≤ hours * 3600
          · simp only [hpe, List.filterMap_cons, keepWindow, if_pos hw, ih,
              List.append_assoc, List.singleton_append]
          · simp only [hpe, List.filterMap_cons, keepWindow, if_neg hw, ih]

theorem get_upcoming_events_eq (pdt : FEvent → Option ℚ) (now hours : ℚ)
    (events : List RawEvent) (currencies : Option (List String)) :
    get_upcoming_events pdt now hours events currencies
      = ((filter_events events currencies).filterMap
          (keepWindow pdt now hours)).mergeSort (fun a b => a.2 ≤ b.2) := by
  simp only [get_upcoming_events]
  rw [window_loop, List.nil_append]

/-- C4.  The upcoming-window selector returns exactly the filtered events
whose computed occurrence time lies in `[now, now + hours]` (as a
permutation of the kept list), sorted ascending by occurrence time, and
stably: for each timestamp, the events carrying it appear in the original
feed order. -/
theorem claim_C4_window_sorted_stable (pdt : FEvent → Option ℚ) (now hours : ℚ)
    (events : List RawEvent) (currencies : Option (List String)) :
    List.Perm (get_upcoming_events pdt now hours events currencies)
        ((filter_events events currencies).filterMap (keepWindow pdt now hours))
      ∧ (get_upcoming_events pdt now hours events currencies).Pairwise
          (fun a b => a.2 ≤ b.2)
      ∧ ∀ d : ℚ,
          (get_upcoming_events pdt now hours events currencies).filter
              (fun x => decide (x.2 = d))
            = ((filter_events events currencies).filterMap
                (keepWindow pdt now hours)).filter (fun x => decide (x.2 = d)) := by
  have htrans : ∀ a b c : FEvent × ℚ, decide (a.2 ≤ b.2) = true →
      decide (b.2 ≤ c.2) = true → decide (a.2 ≤ c.2) = true := by
    intro a b c hab hbc
    rw [decide_eq_true_eq] at hab hbc ⊢
    exact le_trans hab hbc
  have htotal : ∀ a b : FEvent × ℚ,
      (decide (a.2 ≤ b.2) || decide (b.2 ≤ a.2)) = true := by
    intro a b
    rcases le_total a.2 b.2 with h | h <;> simp [h]
  have heq := get_upcoming_events_eq pdt now hours events currencies
  refine ⟨?_, ?_, ?_⟩
  · rw [heq]
    exact List.mergeSort_perm _ _
  · rw [heq]
    exact (List.sorted_mergeSort htrans htotal _).imp
      (fun h => decide_eq_true_eq.mp h)
  · intro d
    rw [heq]
    have hcall : ∀ x ∈ ((filter_events events currencies).filterMap
        (keepWindow pdt now hours)).filter (fun x => decide (x.2 = d)),
        decide (x.2 = d) = true :=
      fun x hx => (List.mem_filter.mp hx).2
    have hcpair : (((filter_events events currencies).filterMap
        (keepWindow pdt now hours)).filter (fun x => decide (x.2 = d))).Pairwise
          (fun a b => decide (a.2 ≤ b.2) = true) := by
      apply List.pairwise_of_forall_mem_list
      intro a ha b hb
      have had := decide_eq_true_eq.mp (hcall a ha)
      have hbd := decide_eq_true_eq.mp (hcall b hb)
      simp [had, hbd]
    have hsub2 := List.sublist_mergeSort htrans htotal hcpair
      (List.filter_sublist ((filter_events events currencies).filterMap
        (keepWindow pdt now hours)))
    have hsub3 := List.Sublist.filter (fun x => decide (x.2 = d)) hsub2
    rw [List.filter_eq_self.mpr hcall] at hsub3
    have hperm := (List.mergeSort_perm ((filter_events events currencies).filterMap
        (keepWindow pdt now hours)) (fun a b => a.2 ≤ b.2)).filter
        (fun x => decide (x.2 = d))
    exact (List.Sublist.eq_of_length hsub3 hperm.length_eq.symm).symm

/-! ## Concrete witnesses -/

theorem claim_C2_witness :
    (60 : ℕ) ∈ thresholds
      ∧ ((thresholdKey "A" 60 ∈ (processEvent (initTracker none) ⟨"A", 3570⟩ 0).2
            ↔ thresholdCond ⟨"A", 3570⟩ 0 60
              ∧ is_news_sent (initTracker none) (thresholdKey "A" 60) = false)
          ∧ (thresholdKey "A" 60 ∈ (processEvent (initTracker none) ⟨"A", 3570⟩ 0).2 →
              thresholdKey "A" 60
                ∈ (processEvent (initTracker none) ⟨"A", 3570⟩ 0).1.sent_news)
          ∧ (thresholdCond ⟨"A", 3570⟩ 0 60 →
              is_news_sent (initTracker none) (thresholdKey "A" 60) = false →
              processEventF false (initTracker none) ⟨"A", 3570⟩ 0
                = Except.error
                    ({ sent_news := insert (thresholdKey "A" 60)
                          (initTracker none).sent_news,
                       file := (initTracker none).file },
                     [thresholdKey "A" 60]))) :=
  ⟨by decide, claim_C2_threshold_fire (initTracker none) ⟨"A", 3570⟩ 0 60 (by decide)⟩

theorem claim_C9_witness :
    FileConsistent (initTracker (some ["k"]))
      ∧ "k" ∈ (initTracker (some ["k"])).sent_news
      ∧ "k" ∈ (applyOps (initTracker (some ["k"]))
          [StoreOp.markSent "a", StoreOp.isSent "b", StoreOp.load]).sent_news :=
  ⟨by decide, by decide,
   claim_C9_monotone [StoreOp.markSent "a", StoreOp.isSent "b", StoreOp.load]
     (initTracker (some ["k"])) "k" (by decide) (by decide)⟩

theorem claim_C10_witness :
    mark_as_sent_f false (initTracker none) "k"
        = Except.error
            { sent_news := insert "k" (initTracker none).sent_news,
              file := (initTracker none).file }
      ∧ is_news_sent
          { sent_news := insert "k" (initTracker none).sent_news,
            file := (initTracker none).file } "k" = true
      ∧ "k" ∈ (applyOps
          { sent_news := insert "k" (initTracker none).sent_news,
            file := (initTracker none).file }
          [StoreOp.markSent "x", StoreOp.isSent "y"]).sent_news :=
  claim_C10_mark_not_atomic (initTracker none) "k"
    [StoreOp.markSent "x", StoreOp.isSent "y"] (by decide)
